import Mathlib

/-!
Verification of the PtitTacToe game engine
(`src/app/Back/tic-tac-toe/tic-tac-toe-engine.ts` together with
`tic-tac-toe.models.ts`).

The TypeScript engine is embedded shallowly:

* `TicTacToePlayer` / `TicTacToeStatus` become inductive types.
* `TicTacToeCell = TicTacToePlayer | null` becomes `Option Player`
  (`none` is the empty cell / `null`).
* A JavaScript `number` argument (move indices may be non-integers at
  run time, and the engine explicitly guards with `Number.isInteger`)
  is embedded as `ℚ`; every numeric value the engine actually produces
  or compares is exactly representable.
* JavaScript array indexing `board[q]` (which yields `undefined` on a
  non-integer or out-of-range index) is embedded as
  `jsGet : List (Option Player) → ℚ → Option (Option Player)`,
  where the outer `none` is `undefined`.
* A method that `throw`s is embedded as a function into
  `Except EngineError _`; the engine mutates `this.snapshot` only after
  all guards pass, so on an error the engine value is unchanged
  (`engineAfterPlay`).
-/

set_option autoImplicit false

namespace TicTacToe

/-- The enum `TicTacToePlayer`, the enum with values X and O. -/
inductive Player : Type
  | X
  | O
deriving DecidableEq, Repr

/-- The enum `TicTacToeStatus`, the enum with values Idle, InProgress, Won, Draw. -/
inductive Status : Type
  | Idle
  | InProgress
  | Won
  | Draw
deriving DecidableEq, Repr

/-- A board cell: `TicTacToeCell = TicTacToePlayer | null`; `none` is `null`. -/
abbrev Cell : Type := Option Player

/-- The record `TicTacToeMove`: `{ index: number; player: TicTacToePlayer }`. -/
structure Move : Type where
  index : ℚ
  player : Player
deriving DecidableEq, Repr

/-- The record `TicTacToeSnapshot`. Optional fields `winner?` and `winningLine?` are
`Option`s (`none` is `undefined`). -/
structure Snapshot : Type where
  board : List Cell
  status : Status
  currentPlayer : Player
  winner : Option Player
  winningLine : Option (List ℕ)
  moveCount : ℕ
  history : List Move
deriving DecidableEq, Repr

/-- The engine object: the two `readonly` size fields collapse to
`boardSize` (`totalCells` is derived), plus the mutable `snapshot`. -/
structure Engine : Type where
  boardSize : ℕ
  snapshot : Snapshot
deriving DecidableEq, Repr

/-- The error cases the engine can throw, named as in the spec's taxonomy
(the source throws `Error`s with distinct messages in the same order). -/
inductive EngineError : Type
  | InvalidBoardSize
  | GameNotInProgress
  | IndexOutOfRange
  | CellOccupied
  | SizeMismatch
  | NoMovesAvailable
deriving DecidableEq, Repr

/-- The derived field `this.totalCells = boardSize * boardSize`. -/
def Engine.totalCells (e : Engine) : ℕ := e.boardSize * e.boardSize

/-- JavaScript array read `board[q]` for a `number` index `q`: defined
(`some cell`) exactly when `q` is a non-negative integer below the length,
otherwise `undefined` (`none`). -/
def jsGet (board : List Cell) (q : ℚ) : Option Cell :=
  if q.den = 1 ∧ 0 ≤ q.num then board.get? q.num.toNat else none

/-- Source method `createEmptySnapshot(firstPlayer)`. -/
def createEmptySnapshot (totalCells : ℕ) (firstPlayer : Player) : Snapshot :=
  { board := List.replicate totalCells none
    status := Status.InProgress
    currentPlayer := firstPlayer
    winner := none
    winningLine := none
    moveCount := 0
    history := [] }

/-- The constructor `new TicTacToeEngine(boardSize, firstPlayer)`;
throws `InvalidBoardSize` when `boardSize < 3`. -/
def makeEngine (boardSize : ℕ) (firstPlayer : Player) : Except EngineError Engine :=
  if boardSize < 3 then Except.error EngineError.InvalidBoardSize
  else Except.ok { boardSize := boardSize
                   snapshot := createEmptySnapshot (boardSize * boardSize) firstPlayer }

/-- The successfully constructed engine for `3 ≤ boardSize`. -/
def newEngine (boardSize : ℕ) (firstPlayer : Player) : Engine :=
  { boardSize := boardSize
    snapshot := createEmptySnapshot (boardSize * boardSize) firstPlayer }

/-- Source method `reset(firstPlayer)`. -/
def reset (firstPlayer : Player) (e : Engine) : Engine :=
  { e with snapshot := createEmptySnapshot e.totalCells firstPlayer }

/-- Source method `loadSnapshot(snapshot)`: throws `SizeMismatch` when
`snapshot.board.length !== this.totalCells`; otherwise replaces the local
snapshot with the external one (at the value level the array copies
`[...board]`, `[...history]` are identities). -/
def loadSnapshot (ext : Snapshot) (e : Engine) : Except EngineError Engine :=
  if ext.board.length ≠ e.totalCells then Except.error EngineError.SizeMismatch
  else Except.ok { e with snapshot := ext }

/-- Source method `getSnapshot()` (value level: the clone of the snapshot is the
snapshot itself). -/
def getSnapshot (e : Engine) : Snapshot := e.snapshot

/-- Source method `togglePlayer(player)`. -/
def togglePlayer (player : Player) : Player :=
  match player with
  | Player.X => Player.O
  | Player.O => Player.X

/-- Source method `computeWinningLines()`: all rows, then all columns, then the two
diagonals, each of length `boardSize`. -/
def computeWinningLines (n : ℕ) : List (List ℕ) :=
  ((List.range n).map fun row => (List.range n).map fun idx => row * n + idx)
    ++ ((List.range n).map fun col => (List.range n).map fun idx => idx * n + col)
    ++ [(List.range n).map fun idx => idx * (n + 1),
        (List.range n).map fun idx => (idx + 1) * (n - 1)]

/-- The test made by `evaluateBoard` on one line:
`board[a] && board[a] === board[b] && board[a] === board[c]` where
`const [a, b, c] = line` destructures only the FIRST THREE entries.
Out-of-range reads give `undefined`, which is falsy and distinct from
every mark, so `List.getD line` with default `none` is faithful. -/
def lineWin (board : List Cell) (line : List ℕ) : Option Player :=
  match line with
  | a :: b :: c :: _ =>
    match board.getD a none with
    | none => none
    | some p =>
      if board.getD b none = some p ∧ board.getD c none = some p then some p else none
  | _ => none

/-- The `for (const line of winningLines)` scan: first line that wins. -/
def findWin (board : List Cell) : List (List ℕ) → Option (Player × List ℕ)
  | [] => none
  | l :: rest =>
    match lineWin board l with
    | some p => some (p, l)
    | none => findWin board rest

/-- Result record of `evaluateBoard`. -/
structure EvalResult : Type where
  status : Status
  winner : Option Player
  winningLine : Option (List ℕ)
deriving DecidableEq, Repr

/-- Source method `evaluateBoard(board)`: scan the winning lines for a first win, else
Draw when the board is full, else InProgress. -/
def evaluateBoard (n : ℕ) (board : List Cell) : EvalResult :=
  match findWin board (computeWinningLines n) with
  | some (p, l) => { status := Status.Won, winner := some p, winningLine := some l }
  | none =>
    if board.all fun cell => cell.isSome then
      { status := Status.Draw, winner := none, winningLine := none }
    else
      { status := Status.InProgress, winner := none, winningLine := none }

/-- Source method `assertMoveIsAllowed(index)`: `some err` means the method throws.
The occupancy test `this.snapshot.board[index] !== null` is reached only
with an integer in-range index; an out-of-range read would give
`undefined !== null` (true), which `board.get? i ≠ some none` mirrors. -/
def assertMoveIsAllowed (q : ℚ) (e : Engine) : Option EngineError :=
  if e.snapshot.status ≠ Status.InProgress then
    some EngineError.GameNotInProgress
  else if ¬(q.den = 1 ∧ 0 ≤ q ∧ q < (e.totalCells : ℚ)) then
    some EngineError.IndexOutOfRange
  else if e.snapshot.board.get? q.num.toNat ≠ some none then
    some EngineError.CellOccupied
  else
    none

/-- Source method `playMove(index)`: on success the new engine holds the new snapshot,
and the returned snapshot is (a clone of) that snapshot. -/
def playMove (q : ℚ) (e : Engine) : Except EngineError Engine :=
  match assertMoveIsAllowed q e with
  | some err => Except.error err
  | none =>
    let i : ℕ := q.num.toNat
    let board := e.snapshot.board.set i (some e.snapshot.currentPlayer)
    let history := e.snapshot.history ++ [{ index := q, player := e.snapshot.currentPlayer }]
    let moveCount := e.snapshot.moveCount + 1
    let statusResult := evaluateBoard e.boardSize board
    let nextPlayer :=
      if statusResult.status = Status.InProgress then togglePlayer e.snapshot.currentPlayer
      else e.snapshot.currentPlayer
    Except.ok
      { e with snapshot :=
        { board := board
          status := statusResult.status
          currentPlayer := nextPlayer
          winner := statusResult.winner
          winningLine := statusResult.winningLine
          moveCount := moveCount
          history := history } }

/-- The engine object after a `playMove` call returns or throws: the
source assigns `this.snapshot` only after every guard has passed, so a
throwing call leaves the engine untouched. -/
def engineAfterPlay (q : ℚ) (e : Engine) : Engine :=
  match playMove q e with
  | Except.ok e' => e'
  | Except.error _ => e

/-- Source method `getAvailableMoves()`:
`board.map((cell, idx) => cell === null ? idx : -1).filter(idx => idx !== -1)`. -/
def getAvailableMoves (e : Engine) : List ℤ :=
  ((e.snapshot.board.enum.map fun p => if p.2 = none then (p.1 : ℤ) else -1).filter
    fun idx => idx ≠ -1)

/-- Source method `canPlay(index)`. -/
def canPlay (q : ℚ) (e : Engine) : Bool :=
  0 ≤ q ∧ q < (e.totalCells : ℚ) ∧ jsGet e.snapshot.board q = some none ∧
    e.snapshot.status = Status.InProgress

/-- Source method `autoPlay()`: `const [nextMove] = this.getAvailableMoves()` takes the
head; `undefined` (empty list) throws `NoMovesAvailable`. -/
def autoPlay (e : Engine) : Except EngineError Engine :=
  match getAvailableMoves e with
  | [] => Except.error EngineError.NoMovesAvailable
  | i :: _ => playMove (i : ℚ) e

/-- Runs a list of moves, keeping the old state when a move throws (this
is how the application layer drives the engine: `applyMove` catches). -/
def playList (e : Engine) (moves : List ℚ) : Engine :=
  moves.foldl (fun acc q => engineAfterPlay q acc) e

/-- The fresh default engine (`new TicTacToeEngine()`), 3×3, X to play. -/
def E0 : Engine := newEngine 3 Player.X

/-- A 3×3 game X has just won: X at 0, 1, 2; O at 3, 4. -/
def Ewon : Engine := playList E0 [0, 3, 1, 4, 2]

/-- A finished 3×3 draw (O started): O at 1, 2, 3, 6, 8; X at 0, 4, 5, 7. -/
def Edraw : Engine := playList (newEngine 3 Player.O) [1, 0, 2, 4, 3, 5, 6, 7, 8]

/-- The fresh 3×3 engine after the single move X at 0. -/
def E1 : Engine := playList E0 [0]

/-- Engine states reachable through the constructor and the mutating public
operations (`reset`, successful `playMove`, successful `loadSnapshot`). -/
inductive Reachable : Engine → Prop
  | ofInit (n : ℕ) (fp : Player) (hn : 3 ≤ n) : Reachable (newEngine n fp)
  | ofReset (e : Engine) (fp : Player) : Reachable e → Reachable (reset fp e)
  | ofPlay (e e' : Engine) (q : ℚ) : Reachable e → playMove q e = Except.ok e' →
      Reachable e'
  | ofLoad (e e' : Engine) (ext : Snapshot) : Reachable e →
      loadSnapshot ext e = Except.ok e' → Reachable e'

/-- Engine states reachable from a fresh construction using only `reset`
and successful `playMove` calls (the operations named by the invariant). -/
inductive ReachableRP : Engine → Prop
  | ofInit (n : ℕ) (fp : Player) (hn : 3 ≤ n) : ReachableRP (newEngine n fp)
  | ofReset (e : Engine) (fp : Player) : ReachableRP e → ReachableRP (reset fp e)
  | ofPlay (e e' : Engine) (q : ℚ) : ReachableRP e → playMove q e = Except.ok e' →
      ReachableRP e'

/-- Reference list of the empty-cell indices of a board, counting from `k`:
the ascending enumeration the spec describes for `getAvailableMoves`. -/
def availFrom (k : ℕ) : List Cell → List ℤ
  | [] => []
  | c :: rest => if c = none then (k : ℤ) :: availFrom (k + 1) rest else availFrom (k + 1) rest

/-- Reference-level model of a snapshot object: the arrays a
`TicTacToeSnapshot` holds are JavaScript heap objects, kept here only by
their identities (references); `winningLineRef = none` is the absent
(`undefined`) winningLine field. -/
structure SnapshotRefs : Type where
  boardRef : ℕ
  historyRef : ℕ
  winningLineRef : Option ℕ
deriving DecidableEq, Repr

/-- Source method `cloneSnapshot()` at the reference level:
`{ ...this.snapshot, board: [...board], history: [...history] }` allocates
two fresh arrays (references `fresh` and `fresh + 1`) for `board` and
`history`, but the spread copies every other field reference as-is — in
particular the clone's `winningLine` is the SAME array object as the
engine-internal one. (`loadSnapshot` builds its copy with the identical
spread pattern.) Returns the clone and the next free reference. -/
def cloneSnapshotRefs (s : SnapshotRefs) (fresh : ℕ) : SnapshotRefs × ℕ :=
  ({ boardRef := fresh, historyRef := fresh + 1, winningLineRef := s.winningLineRef },
    fresh + 2)

/-- A mutation `arr[i] = v` through a reference, on a heap of
number-array objects. -/
def heapWrite (H : ℕ → List ℕ) (r : ℕ) (v : List ℕ) : ℕ → List ℕ :=
  fun r' => if r' = r then v else H r'

lemma assert_eq_none_iff (q : ℚ) (e : Engine) :
    assertMoveIsAllowed q e = none ↔
      e.snapshot.status = Status.InProgress ∧
      (q.den = 1 ∧ 0 ≤ q ∧ q < (e.totalCells : ℚ)) ∧
      e.snapshot.board.get? q.num.toNat = some none := by
  unfold assertMoveIsAllowed
  split_ifs with h1 h2 h3 <;> simp_all

lemma playMove_error_of_assert (q : ℚ) (e : Engine) (err : EngineError)
    (h : assertMoveIsAllowed q e = some err) :
    playMove q e = Except.error err := by
  unfold playMove
  rw [h]

lemma playMove_ok_shape (q : ℚ) (e e' : Engine) (h : playMove q e = Except.ok e') :
    assertMoveIsAllowed q e = none ∧
      e' = { e with snapshot :=
        { board := e.snapshot.board.set q.num.toNat (some e.snapshot.currentPlayer)
          status := (evaluateBoard e.boardSize
            (e.snapshot.board.set q.num.toNat (some e.snapshot.currentPlayer))).status
          currentPlayer :=
            if (evaluateBoard e.boardSize
                (e.snapshot.board.set q.num.toNat (some e.snapshot.currentPlayer))).status =
                Status.InProgress then
              togglePlayer e.snapshot.currentPlayer
            else e.snapshot.currentPlayer
          winner := (evaluateBoard e.boardSize
            (e.snapshot.board.set q.num.toNat (some e.snapshot.currentPlayer))).winner
          winningLine := (evaluateBoard e.boardSize
            (e.snapshot.board.set q.num.toNat (some e.snapshot.currentPlayer))).winningLine
          moveCount := e.snapshot.moveCount + 1
          history := e.snapshot.history ++
            [{ index := q, player := e.snapshot.currentPlayer }] } } := by
  unfold playMove at h
  cases hassert : assertMoveIsAllowed q e with
  | some err => rw [hassert] at h; exact absurd h (by simp)
  | none =>
    rw [hassert] at h
    simp only [Except.ok.injEq] at h
    exact ⟨rfl, h.symm⟩

lemma playMove_ok_of_assert (q : ℚ) (e : Engine)
    (h : assertMoveIsAllowed q e = none) :
    ∃ e', playMove q e = Except.ok e' := by
  unfold playMove
  rw [h]
  exact ⟨_, rfl⟩

lemma playMove_ok_iff_assert (q : ℚ) (e : Engine) :
    (∃ e', playMove q e = Except.ok e') ↔ assertMoveIsAllowed q e = none := by
  constructor
  · rintro ⟨e', h⟩
    exact (playMove_ok_shape q e e' h).1
  · exact playMove_ok_of_assert q e

/-- C2: `playMove(cellIndex)` fails with `GameNotInProgress` when the status
is not InProgress, with `IndexOutOfRange` when the index is not an integer
in `[0, size²)`, with `CellOccupied` when the target cell is non-empty;
otherwise it places the current player's mark at the index, appends the move
to history, increments `moveCount` by one, runs the Evaluator for the status,
winner and winningLine fields, and toggles `currentPlayer` exactly when the
new status is still InProgress, leaving it unchanged when the game ended. -/
theorem playMove_spec (q : ℚ) (e : Engine) :
    (e.snapshot.status ≠ Status.InProgress →
      playMove q e = Except.error EngineError.GameNotInProgress) ∧
    (e.snapshot.status = Status.InProgress →
      ¬(q.den = 1 ∧ 0 ≤ q ∧ q < (e.totalCells : ℚ)) →
      playMove q e = Except.error EngineError.IndexOutOfRange) ∧
    (e.snapshot.status = Status.InProgress →
      (q.den = 1 ∧ 0 ≤ q ∧ q < (e.totalCells : ℚ)) →
      e.snapshot.board.get? q.num.toNat ≠ some none →
      playMove q e = Except.error EngineError.CellOccupied) ∧
    (e.snapshot.status = Status.InProgress →
      (q.den = 1 ∧ 0 ≤ q ∧ q < (e.totalCells : ℚ)) →
      e.snapshot.board.get? q.num.toNat = some none →
      ∃ e', playMove q e = Except.ok e' ∧
        e'.boardSize = e.boardSize ∧
        e'.snapshot.board =
          e.snapshot.board.set q.num.toNat (some e.snapshot.currentPlayer) ∧
        e'.snapshot.history =
          e.snapshot.history ++ [{ index := q, player := e.snapshot.currentPlayer }] ∧
        e'.snapshot.moveCount = e.snapshot.moveCount + 1 ∧
        e'.snapshot.status = (evaluateBoard e.boardSize e'.snapshot.board).status ∧
        e'.snapshot.winner = (evaluateBoard e.boardSize e'.snapshot.board).winner ∧
        e'.snapshot.winningLine =
          (evaluateBoard e.boardSize e'.snapshot.board).winningLine ∧
        e'.snapshot.currentPlayer =
          (if e'.snapshot.status = Status.InProgress then
            togglePlayer e.snapshot.currentPlayer
          else e.snapshot.currentPlayer)) := by
  refine ⟨?_, ?_, ?_, ?_⟩
  · intro h1
    apply playMove_error_of_assert
    unfold assertMoveIsAllowed
    rw [if_pos h1]
  · intro h1 h2
    apply playMove_error_of_assert
    unfold assertMoveIsAllowed
    rw [if_neg (by simp [h1]), if_pos h2]
  · intro h1 h2 h3
    apply playMove_error_of_assert
    unfold assertMoveIsAllowed
    rw [if_neg (by simp [h1]), if_neg (not_not.mpr h2), if_pos h3]
  · intro h1 h2 h3
    obtain ⟨e', hok⟩ :=
      playMove_ok_of_assert q e ((assert_eq_none_iff q e).mpr ⟨h1, h2, h3⟩)
    obtain ⟨-, hshape⟩ := playMove_ok_shape q e e' hok
    subst hshape
    exact ⟨_, hok, rfl, rfl, rfl, rfl, rfl, rfl, rfl, rfl⟩

/-- Witness for C2: each clause of `playMove_spec` applied at a concrete
engine and index. -/
theorem playMove_spec_witness :
    playMove 0 Ewon = Except.error EngineError.GameNotInProgress ∧
    playMove (mkRat 5 2) E0 = Except.error EngineError.IndexOutOfRange ∧
    playMove 0 E1 = Except.error EngineError.CellOccupied ∧
    (∃ e', playMove 4 E1 = Except.ok e' ∧
      e'.snapshot.moveCount = E1.snapshot.moveCount + 1) := by
  refine ⟨(playMove_spec 0 Ewon).1 (by decide),
    (playMove_spec (mkRat 5 2) E0).2.1 (by decide) (by decide),
    (playMove_spec 0 E1).2.2.1 (by decide) (by decide) (by decide), ?_⟩
  obtain ⟨e', hok, -, -, -, hmc, -⟩ :=
    (playMove_spec 4 E1).2.2.2 (by decide) (by decide) (by decide)
  exact ⟨e', hok, hmc⟩

/-- C4: `playMove` on an occupied cell or an out-of-range (or non-integer)
index fails, and the engine snapshot observable through `getSnapshot` is
unchanged by the failed call. -/
theorem failed_playMove_preserves_snapshot (q : ℚ) (e : Engine)
    (h : ¬(q.den = 1 ∧ 0 ≤ q ∧ q < (e.totalCells : ℚ)) ∨
      e.snapshot.board.get? q.num.toNat ≠ some none) :
    (∃ err, playMove q e = Except.error err) ∧
    getSnapshot (engineAfterPlay q e) = getSnapshot e := by
  have hassert : ∃ err, assertMoveIsAllowed q e = some err := by
    cases hA : assertMoveIsAllowed q e with
    | some err => exact ⟨err, rfl⟩
    | none =>
      obtain ⟨h1, h2, h3⟩ := (assert_eq_none_iff q e).mp hA
      rcases h with h | h
      · exact absurd h2 h
      · exact absurd h3 h
  obtain ⟨err, hA⟩ := hassert
  have hp := playMove_error_of_assert q e err hA
  refine ⟨⟨err, hp⟩, ?_⟩
  unfold engineAfterPlay
  rw [hp]

/-- Witness for C4: the occupied cell 0 and the out-of-range index 99 on a
concrete one-move engine. -/
theorem failed_playMove_preserves_snapshot_witness :
    ((∃ err, playMove 0 E1 = Except.error err) ∧
      getSnapshot (engineAfterPlay 0 E1) = getSnapshot E1) ∧
    ((∃ err, playMove 99 E1 = Except.error err) ∧
      getSnapshot (engineAfterPlay 99 E1) = getSnapshot E1) :=
  ⟨failed_playMove_preserves_snapshot 0 E1 (Or.inr (by decide)),
   failed_playMove_preserves_snapshot 99 E1 (Or.inl (by decide))⟩

/-- C5: once the status is Won or Draw, every `playMove` fails with
`GameNotInProgress` and leaves the engine unchanged, and no sequence of
`playMove` calls ever leaves the terminal state. -/
theorem terminal_state_frozen (e : Engine)
    (h : e.snapshot.status = Status.Won ∨ e.snapshot.status = Status.Draw) :
    (∀ q, playMove q e = Except.error EngineError.GameNotInProgress) ∧
    (∀ q, engineAfterPlay q e = e) ∧
    (∀ moves, playList e moves = e) := by
  have hne : e.snapshot.status ≠ Status.InProgress := by
    rcases h with h | h <;> simp [h]
  have herr : ∀ q, playMove q e = Except.error EngineError.GameNotInProgress := by
    intro q
    apply playMove_error_of_assert
    unfold assertMoveIsAllowed
    rw [if_pos hne]
  have hafter : ∀ q, engineAfterPlay q e = e := by
    intro q
    unfold engineAfterPlay
    rw [herr q]
  refine ⟨herr, hafter, ?_⟩
  intro moves
  induction moves with
  | nil => rfl
  | cons m ms ih =>
    unfold playList at ih ⊢
    rw [List.foldl_cons, hafter m]
    exact ih

/-- Witness for C5: a concrete won game and a concrete drawn game. -/
theorem terminal_state_frozen_witness :
    playMove 7 Ewon = Except.error EngineError.GameNotInProgress ∧
    playList Ewon [5, 7] = Ewon ∧
    playMove 0 Edraw = Except.error EngineError.GameNotInProgress := by
  have h := terminal_state_frozen Ewon (Or.inl (by decide))
  have h2 := terminal_state_frozen Edraw (Or.inr (by decide))
  exact ⟨h.1 7, h.2.2 [5, 7], h2.1 0⟩

/-- C9: for every index value (ℚ embeds every reachable JavaScript number
here, non-integers included), `canPlay` returns true exactly when `playMove`
at that index would succeed without throwing. -/
theorem canPlay_iff_playMove_ok (q : ℚ) (e : Engine) :
    canPlay q e = true ↔ ∃ e', playMove q e = Except.ok e' := by
  rw [playMove_ok_iff_assert, assert_eq_none_iff]
  unfold canPlay jsGet
  simp only [decide_eq_true_eq]
  constructor
  · rintro ⟨hq0, hqt, hget, hst⟩
    by_cases hc : q.den = 1 ∧ 0 ≤ q.num
    · rw [if_pos hc] at hget
      exact ⟨hst, ⟨hc.1, hq0, hqt⟩, hget⟩
    · rw [if_neg hc] at hget
      cases hget
  · rintro ⟨hst, ⟨hden, hq0, hqt⟩, hget⟩
    refine ⟨hq0, hqt, ?_, hst⟩
    rw [if_pos ⟨hden, Rat.num_nonneg.mpr hq0⟩]
    exact hget

/-- C6: `loadSnapshot` fails with `SizeMismatch` exactly when the external
board length differs from `size²`; otherwise it adopts the foreign snapshot
verbatim as local truth, with no other validation, unconditionally replacing
the earlier state. -/
theorem loadSnapshot_spec (ext : Snapshot) (e : Engine) :
    (loadSnapshot ext e = Except.error EngineError.SizeMismatch ↔
      ext.board.length ≠ e.totalCells) ∧
    (ext.board.length = e.totalCells →
      loadSnapshot ext e = Except.ok { e with snapshot := ext }) := by
  unfold loadSnapshot
  by_cases hlen : ext.board.length ≠ e.totalCells
  · rw [if_pos hlen]
    refine ⟨⟨fun _ => hlen, fun _ => rfl⟩, fun h => absurd h hlen⟩
  · rw [if_neg hlen]
    refine ⟨⟨fun h => Except.noConfusion h, fun h => absurd h hlen⟩, fun _ => rfl⟩

/-- Witness for C6: a fresh 3×3 snapshot replaces a finished game, and a
4×4 empty snapshot is rejected by a 3×3 engine. -/
theorem loadSnapshot_spec_witness :
    loadSnapshot E0.snapshot Ewon = Except.ok { Ewon with snapshot := E0.snapshot } ∧
    loadSnapshot (createEmptySnapshot 16 Player.X) E0 =
      Except.error EngineError.SizeMismatch := by
  refine ⟨(loadSnapshot_spec E0.snapshot Ewon).2 (by decide), ?_⟩
  exact (loadSnapshot_spec (createEmptySnapshot 16 Player.X) E0).1.mpr (by decide)

lemma reachable_board_length (e : Engine) (h : Reachable e) :
    e.snapshot.board.length = e.totalCells := by
  induction h with
  | ofInit n fp hn => simp [newEngine, createEmptySnapshot, Engine.totalCells]
  | ofReset e fp _ ih => simp [reset, createEmptySnapshot, Engine.totalCells]
  | ofPlay e e' q _ hok ih =>
    obtain ⟨-, hshape⟩ := playMove_ok_shape q e e' hok
    subst hshape
    simpa [Engine.totalCells] using ih
  | ofLoad e e' ext _ hok ih =>
    unfold loadSnapshot at hok
    split_ifs at hok with hlen
    · rw [Except.ok.injEq] at hok
      subst hok
      exact not_ne_iff.mp hlen

/-- C7: loading a (reachable) engine's snapshot into a fresh engine of the
same size succeeds and reproduces the identical snapshot. -/
theorem loadSnapshot_roundTrip (e : Engine) (fp : Player) (h : Reachable e) :
    ∃ e', loadSnapshot (getSnapshot e) (newEngine e.boardSize fp) = Except.ok e' ∧
      getSnapshot e' = getSnapshot e ∧ e'.boardSize = e.boardSize := by
  refine ⟨{ newEngine e.boardSize fp with snapshot := getSnapshot e }, ?_, rfl, rfl⟩
  unfold loadSnapshot
  rw [if_neg (not_not.mpr
    (show (getSnapshot e).board.length = (newEngine e.boardSize fp).totalCells from
      reachable_board_length e h))]

/-- Witness for C7: the one-move engine round-trips into a fresh engine. -/
theorem loadSnapshot_roundTrip_witness :
    ∃ e', loadSnapshot (getSnapshot E1) (newEngine E1.boardSize Player.O) =
        Except.ok e' ∧
      getSnapshot e' = getSnapshot E1 ∧ e'.boardSize = E1.boardSize :=
  loadSnapshot_roundTrip E1 Player.O
    (Reachable.ofPlay E0 E1 0 (Reachable.ofInit 3 Player.X (by norm_num)) (by rfl))

lemma countP_isSome_set (l : List Cell) (i : ℕ) (p : Player)
    (h : l.get? i = some none) :
    (l.set i (some p)).countP (fun c => c.isSome) =
      l.countP (fun c => c.isSome) + 1 := by
  induction l generalizing i with
  | nil => simp at h
  | cons a t ih =>
    cases i with
    | zero =>
      simp only [List.get?] at h
      rw [Option.some.injEq] at h
      subst h
      simp [List.countP_cons]
    | succ n =>
      simp only [List.get?] at h
      simp only [List.set, List.countP_cons, ih n h]
      omega

lemma countP_replicate_none (n : ℕ) :
    (List.replicate n (none : Cell)).countP (fun c => c.isSome) = 0 := by
  induction n with
  | zero => rfl
  | succ k ih => simp [List.replicate, List.countP_cons, ih]

/-- C3: after any sequence of `reset` and successful `playMove` operations
from a fresh construction, `moveCount` equals the history length and equals
the number of non-empty board cells. -/
theorem moveCount_invariant (e : Engine) (h : ReachableRP e) :
    e.snapshot.moveCount = e.snapshot.history.length ∧
    e.snapshot.moveCount = e.snapshot.board.countP (fun c => c.isSome) := by
  induction h with
  | ofInit n fp hn =>
    exact ⟨rfl, by simp [newEngine, createEmptySnapshot, countP_replicate_none]⟩
  | ofReset e fp _ ih =>
    exact ⟨rfl, by simp [reset, createEmptySnapshot, countP_replicate_none]⟩
  | ofPlay e e' q _ hok ih =>
    obtain ⟨hassert, hshape⟩ := playMove_ok_shape q e e' hok
    obtain ⟨-, -, hget⟩ := (assert_eq_none_iff q e).mp hassert
    subst hshape
    obtain ⟨ih1, ih2⟩ := ih
    exact ⟨by simp [ih1], by simp [countP_isSome_set _ _ _ hget, ih2]⟩

/-- Witness for C3: the invariant evaluated on the concrete one-move engine. -/
theorem moveCount_invariant_witness :
    E1.snapshot.moveCount = E1.snapshot.history.length ∧
    E1.snapshot.moveCount = E1.snapshot.board.countP (fun c => c.isSome) :=
  moveCount_invariant E1
    (ReachableRP.ofPlay E0 E1 0 (ReachableRP.ofInit 3 Player.X (by norm_num)) (by rfl))

lemma avail_eq (b : List Cell) : ∀ k : ℕ,
    ((List.enumFrom k b).map fun p => if p.2 = none then (p.1 : ℤ) else -1).filter
      (fun idx => idx ≠ -1) = availFrom k b := by
  induction b with
  | nil => intro k; rfl
  | cons c rest ih =>
    intro k
    simp only [List.enumFrom, List.map_cons, List.filter_cons]
    by_cases hc : c = none
    · rw [if_pos hc]
      have hk : ((k : ℤ) ≠ -1) := by omega
      simp only [availFrom, hc, if_pos rfl, List.filter_cons]
      rw [if_pos (by simp [hk])]
      rw [← ih (k + 1)]
      simp
    · rw [if_neg hc]
      simp only [availFrom, hc, if_neg hc, List.filter_cons]
      rw [if_neg (by simp)]
      exact ih (k + 1)

lemma getAvailableMoves_eq (e : Engine) :
    getAvailableMoves e = availFrom 0 e.snapshot.board := by
  unfold getAvailableMoves
  exact avail_eq e.snapshot.board 0

lemma availFrom_lb (b : List Cell) : ∀ k : ℕ, ∀ x ∈ availFrom k b, (k : ℤ) ≤ x := by
  induction b with
  | nil => intro k x hx; simp [availFrom] at hx
  | cons c rest ih =>
    intro k x hx
    by_cases hc : c = none
    · simp only [availFrom, if_pos hc, List.mem_cons] at hx
      rcases hx with rfl | hx
      · omega
      · have := ih (k + 1) x hx
        omega
    · simp only [availFrom, if_neg hc] at hx
      have := ih (k + 1) x hx
      omega

lemma availFrom_sorted (b : List Cell) : ∀ k : ℕ,
    List.Pairwise (fun x y : ℤ => x < y) (availFrom k b) := by
  induction b with
  | nil => intro k; simp [availFrom]
  | cons c rest ih =>
    intro k
    by_cases hc : c = none
    · simp only [availFrom, if_pos hc]
      refine List.Pairwise.cons ?_ (ih (k + 1))
      intro x hx
      have := availFrom_lb rest (k + 1) x hx
      omega
    · simp only [availFrom, if_neg hc]
      exact ih (k + 1)

lemma mem_availFrom (b : List Cell) : ∀ (k i : ℕ),
    ((k + i : ℕ) : ℤ) ∈ availFrom k b ↔ b.get? i = some none := by
  induction b with
  | nil => intro k i; simp [availFrom]
  | cons c rest ih =>
    intro k i
    by_cases hc : c = none
    · subst hc
      rw [availFrom, if_pos rfl]
      cases i with
      | zero => simp
      | succ n =>
        rw [List.mem_cons]
        have h1 : ((k + (n + 1) : ℕ) : ℤ) ≠ (k : ℤ) := by omega
        have heq : ((k + (n + 1) : ℕ) : ℤ) = ((k + 1 + n : ℕ) : ℤ) := by push_cast; ring
        rw [heq]
        simp only [ih (k + 1) n, List.get?]
        constructor
        · rintro (h | h)
          · exact absurd (heq ▸ h) h1
          · exact h
        · exact Or.inr
    · rw [availFrom, if_neg hc]
      cases i with
      | zero =>
        constructor
        · intro h
          have := availFrom_lb rest (k + 1) _ h
          omega
        · intro h
          simp only [List.get?, Option.some.injEq] at h
          exact absurd h hc
      | succ n =>
        have heq : ((k + (n + 1) : ℕ) : ℤ) = ((k + 1 + n : ℕ) : ℤ) := by push_cast; ring
        rw [heq, ih (k + 1) n]
        simp [List.get?]

/-- C8: `getAvailableMoves` lists exactly the empty cell indices, all
non-negative and in strictly ascending order; `autoPlay` fails with
`NoMovesAvailable` when no empty cell remains and otherwise behaves exactly
as `playMove` on the head of that list — the lowest-indexed empty cell. -/
theorem availableMoves_autoPlay_spec (e : Engine) :
    (∀ i : ℕ, (i : ℤ) ∈ getAvailableMoves e ↔ e.snapshot.board.get? i = some none) ∧
    (∀ x ∈ getAvailableMoves e, 0 ≤ x) ∧
    List.Pairwise (fun x y : ℤ => x < y) (getAvailableMoves e) ∧
    (getAvailableMoves e = [] → autoPlay e = Except.error EngineError.NoMovesAvailable) ∧
    (∀ (i : ℤ) (rest : List ℤ), getAvailableMoves e = i :: rest →
      autoPlay e = playMove (i : ℚ) e ∧ ∀ j ∈ rest, i < j) := by
  refine ⟨?_, ?_, ?_, ?_, ?_⟩
  · intro i
    rw [getAvailableMoves_eq]
    simpa using mem_availFrom e.snapshot.board 0 i
  · intro x hx
    rw [getAvailableMoves_eq] at hx
    simpa using availFrom_lb e.snapshot.board 0 x hx
  · rw [getAvailableMoves_eq]
    exact availFrom_sorted e.snapshot.board 0
  · intro h
    unfold autoPlay
    rw [h]
  · intro i rest h
    constructor
    · unfold autoPlay
      rw [h]
    · have hs := availFrom_sorted e.snapshot.board 0
      rw [← getAvailableMoves_eq, h] at hs
      exact fun j hj => List.rel_of_pairwise_cons hs hj

/-- Witness for C8: `autoPlay` on the full drawn board fails with
`NoMovesAvailable`; on the one-move engine it plays cell 1, the lowest
empty index; cell 4 is reported available there and cell 0 is not. -/
theorem availableMoves_autoPlay_spec_witness :
    autoPlay Edraw = Except.error EngineError.NoMovesAvailable ∧
    autoPlay E1 = playMove (1 : ℚ) E1 ∧
    ((4 : ℤ) ∈ getAvailableMoves E1 ↔ E1.snapshot.board.get? 4 = some none) ∧
    (0 : ℤ) ≤ 4 := by
  refine ⟨(availableMoves_autoPlay_spec Edraw).2.2.2.1 (by decide),
    ((availableMoves_autoPlay_spec E1).2.2.2.2 1 [2, 3, 4, 5, 6, 7, 8] (by decide)).1,
    ?_, (availableMoves_autoPlay_spec E1).2.1 4 (by decide)⟩
  have h := (availableMoves_autoPlay_spec E1).1 4
  simpa using h

lemma lineWin_cons (board : List Cell) (a b c : ℕ) (rest : List ℕ) :
    lineWin board (a :: b :: c :: rest) =
      match board.getD a none with
      | none => none
      | some p =>
        if board.getD b none = some p ∧ board.getD c none = some p then some p
        else none := rfl

lemma lineWin_shape (board : List Cell) (line : List ℕ) (p : Player)
    (h : lineWin board line = some p) :
    ∃ a b c rest, line = a :: b :: c :: rest ∧
      board.getD a none = some p ∧ board.getD b none = some p ∧
      board.getD c none = some p := by
  rcases line with _ | ⟨a, _ | ⟨b, _ | ⟨c, rest⟩⟩⟩
  · exact Option.noConfusion h
  · exact Option.noConfusion h
  · exact Option.noConfusion h
  · refine ⟨a, b, c, rest, rfl, ?_⟩
    rw [lineWin_cons] at h
    split at h
    · exact Option.noConfusion h
    · rename_i pa hga
      split_ifs at h with hbc
      rw [Option.some.injEq] at h
      subst h
      exact ⟨hga, hbc.1, hbc.2⟩

lemma findWin_some (board : List Cell) (lines : List (List ℕ)) (p : Player)
    (l : List ℕ) (h : findWin board lines = some (p, l)) :
    l ∈ lines ∧ lineWin board l = some p ∧
      ∃ k, lines.get? k = some l ∧
        ∀ j, j < k → ∀ l', lines.get? j = some l' → lineWin board l' = none := by
  induction lines with
  | nil => exact Option.noConfusion h
  | cons hd tl ih =>
    rw [findWin] at h
    cases hw : lineWin board hd with
    | some q =>
      rw [hw] at h
      rw [Option.some.injEq] at h
      obtain ⟨rfl, rfl⟩ := Prod.mk.injEq .. ▸ h
      refine ⟨List.mem_cons_self _ _, hw, 0, rfl, ?_⟩
      intro j hj
      omega
    | none =>
      rw [hw] at h
      obtain ⟨hmem, hwin, k, hk, hbefore⟩ := ih h
      refine ⟨List.mem_cons_of_mem _ hmem, hwin, k + 1, by simpa using hk, ?_⟩
      intro j hj l' hl'
      cases j with
      | zero =>
        simp only [List.get?, Option.some.injEq] at hl'
        subst hl'
        exact hw
      | succ m => exact hbefore m (by omega) l' (by simpa using hl')

lemma computeWinningLines_length (n : ℕ) (l : List ℕ)
    (h : l ∈ computeWinningLines n) : l.length = n := by
  unfold computeWinningLines at h
  simp only [List.mem_append, List.mem_map, List.mem_range, List.mem_cons,
    List.mem_singleton, List.not_mem_nil] at h
  rcases h with (⟨r, -, rfl⟩ | ⟨c, -, rfl⟩) | rfl | rfl | hfalse
  · simp
  · simp
  · simp
  · simp
  · exact absurd hfalse (by simp)

/-- C1, amended to what the scan actually checks: whenever a `playMove` on
an engine of size `n ≥ 3` yields a snapshot with status Won, the winner and
winningLine are present, the winningLine is one of the n rows, n columns or
two diagonals (each an ordered sequence of n indices) and it is the first
such line in the fixed rows-columns-diagonals scan order whose FIRST THREE
cells all equal the winner mark; all n cells of the line are guaranteed to
equal the winner only for n = 3 (the scan never inspects cells beyond the
third). -/
theorem won_winningLine_spec (n : ℕ) (hn : 3 ≤ n) (q : ℚ) (e e' : Engine)
    (hsize : e.boardSize = n) (hplay : playMove q e = Except.ok e')
    (hwon : e'.snapshot.status = Status.Won) :
    ∃ p l, e'.snapshot.winner = some p ∧ e'.snapshot.winningLine = some l ∧
      l ∈ computeWinningLines n ∧ l.length = n ∧
      (∀ a ∈ l.take 3, e'.snapshot.board.getD a none = some p) ∧
      (n = 3 → ∀ a ∈ l, e'.snapshot.board.getD a none = some p) ∧
      (∃ k, (computeWinningLines n).get? k = some l ∧
        ∀ j, j < k → ∀ l', (computeWinningLines n).get? j = some l' →
          lineWin e'.snapshot.board l' = none) := by
  obtain ⟨-, hshape⟩ := playMove_ok_shape q e e' hplay
  have hst : e'.snapshot.status =
      (evaluateBoard e.boardSize
        (e.snapshot.board.set q.num.toNat (some e.snapshot.currentPlayer))).status := by
    rw [hshape]
  have hwr : e'.snapshot.winner =
      (evaluateBoard e.boardSize
        (e.snapshot.board.set q.num.toNat (some e.snapshot.currentPlayer))).winner := by
    rw [hshape]
  have hwl : e'.snapshot.winningLine =
      (evaluateBoard e.boardSize
        (e.snapshot.board.set q.num.toNat (some e.snapshot.currentPlayer))).winningLine := by
    rw [hshape]
  have hbd : e'.snapshot.board =
      e.snapshot.board.set q.num.toNat (some e.snapshot.currentPlayer) := by
    rw [hshape]
  rw [hst] at hwon
  rw [← hbd] at hwon hwr hwl
  clear hst hshape hplay
  cases hf : findWin e'.snapshot.board (computeWinningLines e.boardSize) with
  | none =>
    exfalso
    unfold evaluateBoard at hwon
    rw [hf] at hwon
    split_ifs at hwon
  | some pl =>
    obtain ⟨p, l⟩ := pl
    have heval : evaluateBoard e.boardSize e'.snapshot.board =
        { status := Status.Won, winner := some p, winningLine := some l } := by
      unfold evaluateBoard
      rw [hf]
    rw [hsize] at hf
    obtain ⟨hmem, hwin, k, hk, hbefore⟩ :=
      findWin_some e'.snapshot.board (computeWinningLines n) p l hf
    obtain ⟨a, b, c, rest, hl, hga, hgb, hgc⟩ :=
      lineWin_shape e'.snapshot.board l p hwin
    have hlen : l.length = n := computeWinningLines_length n l hmem
    refine ⟨p, l, by rw [hwr, heval], by rw [hwl, heval], hmem, hlen, ?_, ?_,
      k, hk, hbefore⟩
    · intro x hx
      subst hl
      simp only [List.take, List.mem_cons, List.not_mem_nil, or_false] at hx
      rcases hx with rfl | rfl | rfl
      · exact hga
      · exact hgb
      · exact hgc
    · intro h3 x hx
      subst hl h3
      have hrest : rest = [] := by
        simp only [List.length_cons] at hlen
        have h0 : rest.length = 0 := by omega
        exact List.eq_nil_of_length_eq_zero h0
      subst hrest
      simp only [List.mem_cons, List.not_mem_nil, or_false] at hx
      rcases hx with rfl | rfl | rfl
      · exact hga
      · exact hgb
      · exact hgc

/-- Counterexample to C1 as stated: on a 4×4 board, after the legal moves
X0, O4, X1, O5, X2 the snapshot produced by `playMove` has status Won with
`winningLine = [0, 1, 2, 3]` (the first row, an ordered sequence of n = 4
indices), yet cell 3 of that line is still Empty rather than the winner
mark X — the scan only compared the first three cells of the row. -/
theorem won_line_cell_not_winner_on_4x4 :
    (playList (newEngine 4 Player.X) [0, 4, 1, 5, 2]).snapshot.status = Status.Won ∧
    (playList (newEngine 4 Player.X) [0, 4, 1, 5, 2]).snapshot.winner =
      some Player.X ∧
    (playList (newEngine 4 Player.X) [0, 4, 1, 5, 2]).snapshot.winningLine =
      some [0, 1, 2, 3] ∧
    (playList (newEngine 4 Player.X) [0, 4, 1, 5, 2]).snapshot.board.getD 3 none =
      none := by
  decide

/-- Witness for the amended C1: the concrete won 3×3 game, where the
winning line is the first row `[0, 1, 2]` and (n = 3) every cell of the
line equals the winner X. -/
theorem won_winningLine_spec_witness :
    ∃ p l, Ewon.snapshot.winner = some p ∧ Ewon.snapshot.winningLine = some l ∧
      l ∈ computeWinningLines 3 ∧ l.length = 3 ∧
      (∀ a ∈ l.take 3, Ewon.snapshot.board.getD a none = some p) ∧
      (3 = 3 → ∀ a ∈ l, Ewon.snapshot.board.getD a none = some p) ∧
      (∃ k, (computeWinningLines 3).get? k = some l ∧
        ∀ j, j < k → ∀ l', (computeWinningLines 3).get? j = some l' →
          lineWin Ewon.snapshot.board l' = none) :=
  won_winningLine_spec 3 (by norm_num) 2 (playList E0 [0, 3, 1, 4]) Ewon rfl
    (by rfl) (by decide)

/-- C10 fails on the code: after X wins the concrete 3×3 game, the
snapshot holds a present winningLine array; `cloneSnapshotRefs` shows that
every returned clone deep-copies `board` and `history` (fresh references)
but SHARES the `winningLine` array reference with the engine-internal
snapshot, so a caller's write through the returned snapshot's winningLine
(here `winningLine[0] = 99` on heap reference 2) changes the array the
engine-internal snapshot reads. -/
theorem cloneSnapshot_shares_winningLine_ref :
    Ewon.snapshot.status = Status.Won ∧
    Ewon.snapshot.winningLine = some [0, 1, 2] ∧
    (∀ (s : SnapshotRefs) (fresh : ℕ),
      (cloneSnapshotRefs s fresh).1.winningLineRef = s.winningLineRef ∧
      (cloneSnapshotRefs s fresh).1.boardRef = fresh ∧
      (cloneSnapshotRefs s fresh).1.historyRef = fresh + 1) ∧
    (cloneSnapshotRefs ⟨0, 1, some 2⟩ 3).1.winningLineRef = some 2 ∧
    heapWrite (fun r => if r = 2 then [0, 1, 2] else []) 2 [99, 1, 2] 2 =
      [99, 1, 2] ∧
    (fun r => if r = 2 then [0, 1, 2] else [] : ℕ → List ℕ) 2 = [0, 1, 2] := by
  refine ⟨by decide, by decide, fun s fresh => ⟨rfl, rfl, rfl⟩, rfl, ?_, ?_⟩
  · unfold heapWrite
    simp
  · simp

end TicTacToe
